import Mathlib

/-!
Shallow embedding of the partition read/modify/write engine and the
transparent compression shim of the omnect-cli repository
(src/file/functions.rs and src/validators/image.rs), together with
theorems settling the frozen claims about them.

The file is organised as: all definitions (translated from the Rust
source) first, then the helper lemmas and the claim theorems.
-/

namespace OmnectCli

/-- The `Partition` enum of src/file/functions.rs. -/
inductive Partition where
  | boot
  | rootA
  | cert
  | factory
deriving DecidableEq, Repr

/-- Error kinds produced by the partition engine.  `formatError` stands for the
`anyhow::bail!("get_partition_num: unhandled partition type")` path, while
`subprocessError` stands for a failure of a delegated command pipeline
(spawn/status/output failures in the `exec_*` macros). -/
inductive PartErr where
  | formatError
  | subprocessError
deriving DecidableEq, Repr

/-- The `get_partition_num` function of src/file/functions.rs.  `boot` and
`rootA` return fixed numbers without running the fdisk pipeline.  For `cert`
and `factory` the fdisk | grep | awk pipeline extracts the disklabel type;
`disklabel` is that pipeline's result (`none` when the pipeline fails), and
the `(kind, disklabel)` pair is mapped through the fixed table, any other
pair bailing with the format error. -/
def get_partition_num (p : Partition) (disklabel : Option String) : Except PartErr Nat :=
  match p with
  | .boot => .ok 1
  | .rootA => .ok 2
  | .factory =>
    match disklabel with
    | none => .error .subprocessError
    | some t =>
      if t = "gpt" then .ok 4
      else if t = "dos" then .ok 5
      else .error .formatError
  | .cert =>
    match disklabel with
    | none => .error .subprocessError
    | some t =>
      if t = "gpt" then .ok 5
      else if t = "dos" then .ok 6
      else .error .formatError

/-- Rust `str::parse::<u32>`: an optional leading `+` followed by one or more
ASCII digits, the value fitting in 32 bits; anything else fails. -/
def parseU32 (s : String) : Option Nat :=
  let cs := match s.toList with
    | '+' :: rest => rest
    | cs => cs
  if cs ≠ [] ∧ cs.all (·.isDigit) then
    let v := cs.foldl (fun a c => a * 10 + (c.toNat - 48)) 0
    if v < 2 ^ 32 then some v else none
  else none

/-- The `XzGenerator::get_level` function of src/validators/image.rs.
`envVar` is the value of the `XZ_ENCODER_PRESET` environment variable
(`none` when unset).  The code parses it with default "9" and fallback 9,
then keeps it only when the Rust range `0..9` (end-exclusive) contains it,
falling back to 9 otherwise. -/
def get_level (envVar : Option String) : Nat :=
  let level := (parseU32 (envVar.getD "9")).getD 9
  if level < 9 then level else 9

/-- One data row of the `fdisk -l -o Device,Start,End` listing: the device
name and the text of the Start and End columns. -/
structure FdiskRow where
  device : String
  start : String
  endCol : String
deriving DecidableEq, Repr

/-- The text of one listing row as grep sees it. -/
def rowLine (r : FdiskRow) : String :=
  r.device ++ " " ++ r.start ++ " " ++ r.endCol

/-- Pattern check at the head of a character list. -/
def listStartsWith : List Char → List Char → Bool
  | [], _ => true
  | _ :: _, [] => false
  | p :: ps, c :: cs => p = c && listStartsWith ps cs

/-- Substring containment on character lists. -/
def listContains (pat : List Char) : List Char → Bool
  | [] => listStartsWith pat []
  | c :: cs => listStartsWith pat (c :: cs) || listContains pat cs

/-- The `grep "{image_file}{partition}"` stage: substring match on the row's
line. -/
def grepMatches (pat : String) (r : FdiskRow) : Bool :=
  listContains pat.data (rowLine r).data

/-- The `awk "{print $2 \" \" $3}"` stage applied to one row: the second and
third whitespace-separated fields of a listing row are its Start and End
columns. -/
def awkCols23 (r : FdiskRow) : String :=
  r.start ++ " " ++ r.endCol

/-- Concatenation of the awk output lines, newline separated (the pipeline's
collected stdout after `trim`; awk output has no surrounding whitespace). -/
def pipelineText : List String → String
  | [] => ""
  | [x] => x
  | x :: xs => x ++ "\n" ++ pipelineText xs

/-- Rust `str::split_once(' ')`: split at the first space, `none` when no
space occurs. -/
def splitOnceList : List Char → Option (List Char × List Char)
  | [] => none
  | c :: cs =>
    if c = ' ' then some ([], cs)
    else
      match splitOnceList cs with
      | some (a, b) => some (c :: a, b)
      | none => none

/-- The `get_partition_offset` function of src/file/functions.rs:
`fdisk -l -o Device,Start,End {image}` piped through
`grep "{image}{partition}"` and `awk "{print $2 \" \" $3}"`, the output then
split at the first space into the returned (start, end-column) pair of
strings; an output with no space (in particular the empty output when no row
matches) fails. -/
def get_partition_offset (table : List FdiskRow) (image partNum : String) :
    Except PartErr (String × String) :=
  let matched := table.filter (grepMatches (image ++ partNum))
  let out := pipelineText (matched.map awkCols23)
  match splitOnceList out.data with
  | some (a, b) => .ok (String.mk a, String.mk b)
  | none => .error .subprocessError

/-- Argument record of one `dd` invocation. -/
structure DdArgs where
  inFile : String
  outFile : String
  bs : Nat
  skipOrSeek : String
  count : String
  conv : String
deriving DecidableEq, Repr

/-- The `dd` command constructed by `read_partition` in
src/file/functions.rs: `if={image} of={partition_file} bs=512
skip={offset.0} count={offset.1} conv=sparse`. -/
def read_partition_dd (image partFile : String) (offset : String × String) : DdArgs :=
  { inFile := image, outFile := partFile, bs := 512,
    skipOrSeek := offset.1, count := offset.2, conv := "sparse" }

/-- The `dd` command constructed by `write_partition` in
src/file/functions.rs: `if={partition_file} of={image} bs=512
seek={offset.0} count={offset.1} conv=notrunc,sparse`. -/
def write_partition_dd (image partFile : String) (offset : String × String) : DdArgs :=
  { inFile := partFile, outFile := image, bs := 512,
    skipOrSeek := offset.1, count := offset.2, conv := "notrunc,sparse" }

/-- Abstract whole-stream codec as provided by the xz2 / bzip2 / flate2
crates: an encoding and a decoding transform on byte streams, with the
library's guarantee that decoding inverts encoding. -/
structure Codec where
  enc : List Nat → List Nat
  dec : List Nat → List Nat
  roundtrip : ∀ d, dec (enc d) = d

/-- Direction of a configured lzma `Stream`: `MtStreamBuilder…encoder()`
yields an encoding stream; a decoding stream would decode. -/
inductive StreamDir where
  | encode
  | decode
deriving DecidableEq, Repr

/-- Feeding data through a configured stream: the `write::XzEncoder` and
`write::XzDecoder` wrappers both pass written bytes through whatever stream
they were constructed with, so the transform applied is the stream's own
direction. -/
def streamRun (c : Codec) : StreamDir → List Nat → List Nat
  | .encode, d => c.enc d
  | .decode, d => c.dec d

/-- `XzGenerator::compress` of src/validators/image.rs: builds
`MtStreamBuilder…encoder()` and wraps it in `XzEncoder::new_stream`; the
destination receives the encoded source. -/
def xzShimCompress (xz : Codec) (data : List Nat) : List Nat :=
  streamRun xz .encode data

/-- `XzGenerator::decompress` of src/validators/image.rs: builds
`MtStreamBuilder…encoder()` — an encoding stream — and wraps it in
`XzDecoder::new_stream`, which feeds written bytes through the stream it was
given; the destination therefore receives the encoded source again, not the
decoded one. -/
def xzShimDecompress (xz : Codec) (data : List Nat) : List Nat :=
  streamRun xz .encode data

/-- `BzGenerator::compress`: `BzEncoder::new(destination, best)`. -/
def bzShimCompress (bz : Codec) (data : List Nat) : List Nat :=
  bz.enc data

/-- `BzGenerator::decompress`: `BzDecoder::new(destination)`. -/
def bzShimDecompress (bz : Codec) (data : List Nat) : List Nat :=
  bz.dec data

/-- `GzGenerator::compress`: `GzEncoder::new(destination, best)`. -/
def gzShimCompress (gz : Codec) (data : List Nat) : List Nat :=
  gz.enc data

/-- `GzGenerator::decompress`: `GzDecoder::new(destination)`. -/
def gzShimDecompress (gz : Codec) (data : List Nat) : List Nat :=
  gz.dec data

/-- A concrete codec satisfying the library round-trip contract, used to
evaluate the shim's operations: encoding prepends a marker byte, decoding
drops it. -/
def markerCodec : Codec where
  enc d := 0 :: d
  dec d := d.drop 1
  roundtrip d := by simp

/-- Detection markers of the COMPRESSION_TABLE of src/validators/image.rs,
in table order. -/
def compressionMarkers : List String :=
  ["XZ compressed data", "bzip2 compressed data", "gzip compressed data"]

/-- First index whose marker occurs in the sniffed description
(`magic.find(elem.marker) != None`, first match wins). -/
def findCodecIdx (magic : String) : List String → Option Nat
  | [] => none
  | m :: ms =>
    if listContains m.data magic.data then some 0
    else (findCodecIdx magic ms).map (· + 1)

/-- Lookup over the whole compression table. -/
def findCodec (magic : String) : Option Nat :=
  findCodecIdx magic compressionMarkers

/-- Error values `validate_and_decompress_image` can return. -/
inductive VErr where
  | magicFail
  | createFail
  | openFail
  | decodeFail
  | innerErr (code : Nat)
  | recompressFail
  | cleanupFail
deriving DecidableEq, Repr

/-- Outcome oracles for the effectful steps of the compression shim. -/
structure ShimEnv where
  magicOk : Bool
  magic : String
  createOk : Bool
  openOk : Bool
  decodeOk : Bool
  action : Except Nat Unit
  createOrigOk : Bool
  openScratchOk : Bool
  encodeOk : Bool
  removeOk : Bool

/-- Observable file-system state tracked by the shim embedding:
whether the `<image>.<suffix>.tmp` scratch file exists, and whether the
original image path has been written to. -/
structure ShimSt where
  scratchExists : Bool
  origModified : Bool
deriving DecidableEq, Repr

/-- The `decompress` helper of src/validators/image.rs as a state
transformer: `File::create(new_image_file)` makes the scratch file exist
(and may itself fail first), then the image is opened and stream-decoded
into the scratch file; each later failure leaves the created scratch file
in place. -/
def decompressStep (env : ShimEnv) (st : ShimSt) : Except VErr Unit × ShimSt :=
  if !env.createOk then (.error .createFail, st)
  else
    let st := { st with scratchExists := true }
    if !env.openOk then (.error .openFail, st)
    else if !env.decodeOk then (.error .decodeFail, st)
    else (.ok (), st)

/-- The `compress` helper of src/validators/image.rs as a state transformer:
`File::create(compressed_file_name)` truncates the original image path (so
the original is modified from that point on), then the scratch file is
opened and stream-encoded over it; the caller wraps every failure into its
"Recompressing failed" error. -/
def compressStep (env : ShimEnv) (st : ShimSt) : Except VErr Unit × ShimSt :=
  if !env.createOrigOk then (.error .recompressFail, st)
  else
    let st := { st with origModified := true }
    if !env.openScratchOk then (.error .recompressFail, st)
    else if !env.encodeOk then (.error .recompressFail, st)
    else (.ok (), st)

/-- The `validate_and_decompress_image` function of src/validators/image.rs.
libmagic failures return before anything is created; an unmatched sniffed
description runs the action on the original path directly; a matched one
decompresses to the scratch file (propagating decompression failures with
an early return), runs the action on it, recompresses over the original
path only on action success, and finally removes the scratch file, a
removal failure overwriting `success` with the cleanup error. -/
def validate_and_decompress_image (env : ShimEnv) (st : ShimSt) :
    Except VErr Unit × ShimSt :=
  if !env.magicOk then (.error .magicFail, st)
  else
    match findCodec env.magic with
    | none =>
      (match env.action with
       | .ok _ => .ok ()
       | .error c => .error (.innerErr c), st)
    | some _ =>
      match decompressStep env st with
      | (.error e, st) => (.error e, st)
      | (.ok _, st) =>
        let res :=
          match env.action with
          | .ok _ => compressStep env st
          | .error c => (.error (.innerErr c), st)
        let success := res.1
        let st := res.2
        if env.removeOk then (success, { st with scratchExists := false })
        else (.error .cleanupFail, st)

/-- Initial file-system state: no scratch file, original image untouched. -/
def shimSt0 : ShimSt :=
  { scratchExists := false, origModified := false }

/-- Oracle set for the run where stream-decoding the image into the already
created scratch file fails, every other step being healthy. -/
def envDecodeFail : ShimEnv :=
  { magicOk := true, magic := "XZ compressed data, checksum CRC64",
    createOk := true, openOk := true, decodeOk := false, action := .ok (),
    createOrigOk := true, openScratchOk := true, encodeOk := true,
    removeOk := true }

/-- Oracle set for the run where the inner action fails with code 7 and the
scratch-file removal also fails. -/
def envCleanupMask : ShimEnv :=
  { magicOk := true, magic := "XZ compressed data, checksum CRC64",
    createOk := true, openOk := true, decodeOk := true, action := .error 7,
    createOrigOk := true, openScratchOk := true, encodeOk := true,
    removeOk := false }

/-- `Partition::from_str` of src/file/functions.rs. -/
def partitionFromStr (s : String) : Option Partition :=
  if s = "boot" then some .boot
  else if s = "rootA" then some .rootA
  else if s = "cert" then some .cert
  else if s = "factory" then some .factory
  else none

/-- Occurrence count of a character in a string
(`s.matches(c).count()`). -/
def countChar (s : String) (c : Char) : Nat :=
  s.data.count c

/-- Separator set of the request-string format. -/
def isSep (c : Char) : Bool :=
  c = ',' || c = ':'

/-- Rust `s.split(&[',', ':'])`: the fields between occurrences of either
separator, empty fields kept. -/
def splitSeps : List Char → List (List Char)
  | [] => [[]]
  | c :: cs =>
    if isSep c then [] :: splitSeps cs
    else
      match splitSeps cs with
      | f :: r => (c :: f) :: r
      | [] => [[c]]

/-- Rust Unix `Path::is_absolute`: the path begins with the root
separator. -/
def isAbsolutePath (s : String) : Bool :=
  match s.data with
  | '/' :: _ => true
  | _ => false

/-- The `FileCopyToParams` struct of src/file/functions.rs. -/
structure FileCopyToParams where
  in_file : String
  partition : Partition
  out_file : String
deriving DecidableEq, Repr

/-- `FileCopyToParams::from_str` of src/file/functions.rs: the string must
hold exactly one ',' and exactly one ':'; it is then split on both
separators into exactly three fields; the middle field must parse as a
partition name, the first must exist on the host (`hostExists` is the host
file-system oracle) and the last must be an absolute path. -/
def fileCopyToParams_from_str (hostExists : String → Bool) (s : String) :
    Except String FileCopyToParams :=
  if countChar s ',' = 1 ∧ countChar s ':' = 1 then
    match splitSeps s.data with
    | [f0, f1, f2] =>
      match partitionFromStr (String.mk f1) with
      | none => .error "unknown partition: use either boot, rootA, cert or factory"
      | some p =>
        if hostExists (String.mk f0) then
          if isAbsolutePath (String.mk f2) then
            .ok { in_file := String.mk f0, partition := p, out_file := String.mk f2 }
          else .error "out-file-path is not an absolute path"
        else .error "in-file-path does not exist"
    | _ => .error "format not matched: in-file-path,out-partition:out-file-path"
  else .error "format not matched: in-file-path,out-partition:out-file-path"

/-- Model of a Rust `Path` for the purposes of `file_name()`: whether it is
absolute, and its components after Rust's parsing (`.` components dropped,
`..` kept). -/
structure RPath where
  absolute : Bool
  components : List String
deriving DecidableEq, Repr

/-- Rust `Path::file_name()`: the final component, unless the path has no
components or ends in `..`. -/
def fileName (p : RPath) : Option String :=
  match p.components.getLast? with
  | none => none
  | some c => if c = ".." then none else some c

/-- The `FileCopyFromParams` struct of src/file/functions.rs. -/
structure FileCopyFromParams where
  in_file : RPath
  partition : Partition
  out_file : RPath
deriving DecidableEq, Repr

/-- Observable result of running `copy_from_image`: normal return, error
return, or a panic from an unchecked `unwrap`. -/
inductive RunOutcome where
  | ok
  | error
  | panicked
deriving DecidableEq, Repr

/-- Outcome oracles for the effectful steps of `copy_from_image`. -/
structure CopyFromEnv where
  disklabel : Option String
  table : List FdiskRow
  image : String
  parentOk : Bool
  ddReadOk : Bool
  mcopyOk : Bool
  e2cpOk : Bool
  e2cpOutExists : Bool
  createDirOk : Bool
  renameOk : Bool

/-- Final `create_dir_all` + `fs::rename` steps of one `copy_from_image`
iteration. -/
def finishMove (env : CopyFromEnv) : RunOutcome :=
  if !env.createDirOk then .error
  else if !env.renameOk then .error
  else .ok

/-- One iteration of the loop of `copy_from_image` in
src/file/functions.rs: resolve the partition number, resolve the offsets,
read the partition, then for a boot request push
`param.in_file.file_name().unwrap()` (a panic when the source has no final
component) and run mcopy, and for any other request push
`param.out_file.file_name().unwrap()` (a panic when the destination has no
final component), run e2cp and check that its output file exists; finally
create the destination directory and rename the temp file into place. -/
def copy_from_one (env : CopyFromEnv) (param : FileCopyFromParams) : RunOutcome :=
  match get_partition_num param.partition env.disklabel with
  | .error _ => .error
  | .ok n =>
    match get_partition_offset env.table env.image (toString n) with
    | .error _ => .error
    | .ok _ =>
      if !env.ddReadOk then .error
      else if param.partition = .boot then
        match fileName param.in_file with
        | none => .panicked
        | some _ =>
          if !env.mcopyOk then .error else finishMove env
      else
        match fileName param.out_file with
        | none => .panicked
        | some _ =>
          if !env.e2cpOk then .error
          else if !env.e2cpOutExists then .error
          else finishMove env

/-- The `copy_from_image` function of src/file/functions.rs: the image's
parent directory is resolved once, then the requests run in order, the
first error or panic aborting the remainder. -/
def copy_from_image (env : CopyFromEnv) (params : List FileCopyFromParams) : RunOutcome :=
  if !env.parentOk then .error
  else go env params
where
  go (env : CopyFromEnv) : List FileCopyFromParams → RunOutcome
    | [] => .ok
    | p :: ps =>
      match copy_from_one env p with
      | .ok => go env ps
      | r => r

/-- Oracle set for a run of `copy_from_image` in which every delegated step
succeeds except the final rename. -/
def envRenameFails : CopyFromEnv :=
  { disklabel := some "gpt",
    table := [⟨"img1", "2048", "409600"⟩, ⟨"img2", "409601", "819200"⟩],
    image := "img",
    parentOk := true, ddReadOk := true, mcopyOk := true, e2cpOk := true,
    e2cpOutExists := true, createDirOk := true, renameOk := false }

/-- A boot-partition copy-from request whose destination path is the
filesystem root, so the destination has no final file-name component. -/
def reqBootRootDest : FileCopyFromParams :=
  { in_file := { absolute := true, components := ["a.txt"] },
    partition := .boot,
    out_file := { absolute := true, components := [] } }

/-- Trace events of the partition batch engine: `read_partition` and
`write_partition` invocations, the dd block copies they delegate, and the
per-file bridge copies of step 3 of `copy_to_image`. -/
inductive Ev where
  | readPartCall (n : Nat)
  | ddRead (n : Nat)
  | applyFile (n : Nat) (inFile : String)
  | writePartCall (n : Nat)
  | ddWrite (n : Nat)
deriving DecidableEq, Repr

/-- Selector for `read_partition` invocation events. -/
def Ev.isReadCall : Ev → Bool
  | .readPartCall _ => true
  | _ => false

/-- Selector for `write_partition` invocation events. -/
def Ev.isWriteCall : Ev → Bool
  | .writePartCall _ => true
  | _ => false

/-- Selector for extraction dd block copies. -/
def Ev.isDdRead : Ev → Bool
  | .ddRead _ => true
  | _ => false

/-- Selector for write-back dd block copies. -/
def Ev.isDdWrite : Ev → Bool
  | .ddWrite _ => true
  | _ => false

/-- Oracles for one `copy_to_image` run: the disklabel pipeline result, the
layout table, the image path, and per-command success oracles (the dd read
and the dd write per partition number; the mkdir-plus-copy pair per
partition number and input file as one oracle, since either failure aborts
identically). -/
structure EngineEnv where
  disklabel : Option String
  table : List FdiskRow
  image : String
  ddReadOk : Nat → Bool
  copyOk : Nat → String → Bool
  ddWriteOk : Nat → Bool

/-- The `read_partition` function of src/file/functions.rs over the scratch
state (the set of partition numbers whose `<n>.img` file exists): an early
return when the scratch file already exists, otherwise the dd block copy
(which creates the scratch file) followed by sync. -/
def read_partition_run (env : EngineEnv) (scratch : List Nat) (n : Nat) :
    List Ev × List Nat × Bool :=
  if n ∈ scratch then ([.readPartCall n], scratch, true)
  else ([.readPartCall n, .ddRead n], n :: scratch, env.ddReadOk n)

/-- The per-file loop of step 3 of `copy_to_image`: directory creation plus
mcopy/e2cp per file, the first failure aborting the rest. -/
def applyFiles (env : EngineEnv) (n : Nat) : List FileCopyToParams → List Ev × Bool
  | [] => ([], true)
  | f :: fs =>
    if env.copyOk n f.in_file then
      let r := applyFiles env n fs
      (.applyFile n f.in_file :: r.1, r.2)
    else ([.applyFile n f.in_file], false)

/-- The `write_partition` function of src/file/functions.rs: the dd
write-back, fallocate and sync, with one success oracle. -/
def write_partition_run (env : EngineEnv) (n : Nat) : List Ev × Bool :=
  ([.writePartCall n, .ddWrite n], env.ddWriteOk n)

/-- Steps 1–4 of `copy_to_image` for one key of the grouping map: resolve
the partition number, resolve its offsets, read the partition once, apply
every file request for it, write the partition back once. -/
def processPartition (env : EngineEnv) (scratch : List Nat) (p : Partition)
    (files : List FileCopyToParams) : List Ev × List Nat × Bool :=
  match get_partition_num p env.disklabel with
  | .error _ => ([], scratch, false)
  | .ok n =>
    match get_partition_offset env.table env.image (toString n) with
    | .error _ => ([], scratch, false)
    | .ok _ =>
      let r1 := read_partition_run env scratch n
      if !r1.2.2 then (r1.1, r1.2.1, false)
      else
        let r2 := applyFiles env n files
        if !r2.2 then (r1.1 ++ r2.1, r1.2.1, false)
        else
          let r3 := write_partition_run env n
          (r1.1 ++ r2.1 ++ r3.1, r1.2.1, r3.2)

/-- The outer loop of `copy_to_image` over the grouping map's keys, the
first failure aborting the remaining partitions. -/
def copyToLoop (env : EngineEnv) (reqs : List FileCopyToParams) :
    List Partition → List Nat → List Ev × List Nat × Bool
  | [], scratch => ([], scratch, true)
  | p :: ps, scratch =>
    let r := processPartition env scratch p (reqs.filter (fun f => f.partition = p))
    if r.2.2 then
      let r2 := copyToLoop env reqs ps r.2.1
      (r.1 ++ r2.1, r2.2.1, r2.2.2)
    else (r.1, r.2.1, false)

/-- The `copy_to_image` function of src/file/functions.rs: requests are
grouped into a HashMap keyed by partition (the Vec pushes preserving
per-partition request order), then each distinct partition is processed
once.  HashMap key iteration order is arbitrary; it is represented here by
`List.dedup` of the touched partitions, and the claims proved below are
insensitive to the order. -/
def copy_to_image (env : EngineEnv) (scratch : List Nat)
    (reqs : List FileCopyToParams) : List Ev × List Nat × Bool :=
  copyToLoop env reqs (reqs.map (fun f => f.partition)).dedup scratch

/-- Engine oracles for a concrete healthy gpt-image run. -/
def envEngineW : EngineEnv :=
  { disklabel := some "gpt",
    table := [⟨"img1", "2048", "409600"⟩, ⟨"img2", "409601", "819200"⟩],
    image := "img",
    ddReadOk := fun _ => true,
    copyOk := fun _ _ => true,
    ddWriteOk := fun _ => true }

/-- A concrete request list: three files across two distinct partitions. -/
def reqsW : List FileCopyToParams :=
  [{ in_file := "a", partition := .boot, out_file := "/b" },
   { in_file := "c", partition := .rootA, out_file := "/d" },
   { in_file := "e", partition := .boot, out_file := "/f" }]

/-- The trace of the concrete healthy run of `copy_to_image` on
`envEngineW` and `reqsW`. -/
def trWitness : List Ev :=
  [.readPartCall 2, .ddRead 2, .applyFile 2 "c", .writePartCall 2, .ddWrite 2,
   .readPartCall 1, .ddRead 1, .applyFile 1 "a", .applyFile 1 "e",
   .writePartCall 1, .ddWrite 1]

/-! ## Helper lemmas -/

theorem splitSeps_ne_nil (l : List Char) : splitSeps l ≠ [] := by
  cases l with
  | nil => simp [splitSeps]
  | cons c cs =>
    simp only [splitSeps]
    split
    · simp
    · split <;> simp

theorem splitSeps_length (l : List Char) :
    (splitSeps l).length = l.countP isSep + 1 := by
  induction l with
  | nil => simp [splitSeps]
  | cons c cs ih =>
    by_cases h : isSep c
    · simp [splitSeps, h, List.countP_cons, ih]
    · rcases he : splitSeps cs with _ | ⟨f, r⟩
      · exact absurd he (splitSeps_ne_nil cs)
      · rw [he] at ih
        simp only [List.length_cons] at ih
        simp [splitSeps, h, he, List.countP_cons, ih]

theorem countP_isSep (l : List Char) :
    l.countP isSep = l.count ',' + l.count ':' := by
  induction l with
  | nil => simp
  | cons c cs ih =>
    by_cases h1 : c = ','
    · subst h1
      simp [List.countP_cons, List.count_cons, isSep, ih]
      omega
    · by_cases h2 : c = ':'
      · subst h2
        simp [List.countP_cons, List.count_cons, isSep, ih]
        omega
      · simp [List.countP_cons, List.count_cons, isSep, h1, h2, ih]

theorem gpn_inj (d : Option String) (p q : Partition) (n : Nat)
    (hp : get_partition_num p d = .ok n) (hq : get_partition_num q d = .ok n) :
    p = q := by
  cases d with
  | none =>
    cases p <;> cases q <;> simp [get_partition_num] at hp hq <;>
      first | rfl | (exfalso; omega)
  | some t =>
    by_cases hg : t = "gpt" <;> by_cases hd : t = "dos"
    · rw [hg] at hd
      exact absurd hd (by decide)
    all_goals
      cases p <;> cases q <;> simp [get_partition_num, hg, hd] at hp hq <;>
        first | rfl | (exfalso; omega)

theorem applyFiles_ok (env : EngineEnv) (n : Nat) (files : List FileCopyToParams) :
    ∀ tr, applyFiles env n files = (tr, true) →
      tr = files.map (fun f => Ev.applyFile n f.in_file) := by
  induction files with
  | nil =>
    intro tr h
    simp [applyFiles] at h
    simp [h]
  | cons f fs ih =>
    intro tr h
    rcases hfa : applyFiles env n fs with ⟨tr2, ok2⟩
    by_cases hc : env.copyOk n f.in_file
    · rw [applyFiles, if_pos hc, hfa] at h
      obtain ⟨h1, h2⟩ := Prod.mk.injEq .. ▸ h
      subst h2
      simp [← h1, ih tr2 hfa]
    · rw [applyFiles, if_neg hc] at h
      obtain ⟨h1, h2⟩ := Prod.mk.injEq .. ▸ h
      exact absurd h2.symm (by decide)

theorem processPartition_ok (env : EngineEnv) (scratch : List Nat) (p : Partition)
    (files : List FileCopyToParams) (tr : List Ev) (scr : List Nat)
    (h : processPartition env scratch p files = (tr, scr, true)) :
    ∃ n mid,
      get_partition_num p env.disklabel = .ok n ∧
      tr = .readPartCall n :: mid ++ files.map (fun f => Ev.applyFile n f.in_file) ++
        [.writePartCall n, .ddWrite n] ∧
      ((n ∈ scratch ∧ mid = [] ∧ scr = scratch) ∨
       (n ∉ scratch ∧ mid = [.ddRead n] ∧ scr = n :: scratch)) := by
  rcases hn : get_partition_num p env.disklabel with e | n
  · simp [processPartition, hn] at h
  · rcases ho : get_partition_offset env.table env.image (toString n) with e | off
    · simp [processPartition, hn, ho] at h
    · rcases haf : applyFiles env n files with ⟨tr2, ok2⟩
      by_cases hmem : n ∈ scratch
      · cases ok2 with
        | false =>
          simp [processPartition, hn, ho, read_partition_run, hmem, haf] at h
        | true =>
          have htr2 := applyFiles_ok env n files tr2 haf
          simp only [processPartition, hn, ho, read_partition_run, if_pos hmem,
            Bool.not_true, Bool.false_eq_true, if_false, haf, write_partition_run,
            Prod.mk.injEq] at h
          obtain ⟨h1, h2, h3⟩ := h
          refine ⟨n, [], rfl, ?_, Or.inl ⟨hmem, rfl, h2.symm⟩⟩
          simp [← h1, htr2]
      · cases hdd : env.ddReadOk n with
        | false =>
          simp [processPartition, hn, ho, read_partition_run, hmem, hdd, haf] at h
        | true =>
          cases ok2 with
          | false =>
            simp [processPartition, hn, ho, read_partition_run, hmem, hdd, haf] at h
          | true =>
            have htr2 := applyFiles_ok env n files tr2 haf
            simp only [processPartition, hn, ho, read_partition_run, if_neg hmem, hdd,
              Bool.not_true, Bool.false_eq_true, if_false, haf, write_partition_run,
              Prod.mk.injEq] at h
            obtain ⟨h1, h2, h3⟩ := h
            refine ⟨n, [.ddRead n], rfl, ?_, Or.inr ⟨hmem, rfl, h2.symm⟩⟩
            simp [← h1, htr2]

theorem copyToLoop_ok (env : EngineEnv) (reqs : List FileCopyToParams) :
    ∀ (keys : List Partition) (scratch : List Nat) (tr : List Ev) (scr : List Nat),
      copyToLoop env reqs keys scratch = (tr, scr, true) →
      tr.countP Ev.isReadCall = keys.length ∧
      tr.countP Ev.isWriteCall = keys.length ∧
      tr.countP Ev.isDdWrite = keys.length ∧
      ∀ p ∈ keys, ∃ n pre mid post,
        get_partition_num p env.disklabel = .ok n ∧
        (mid = [] ∨ mid = [Ev.ddRead n]) ∧
        tr = pre ++ Ev.readPartCall n :: mid ++
          (reqs.filter (fun f => f.partition = p)).map
            (fun f => Ev.applyFile n f.in_file) ++
          [Ev.writePartCall n, Ev.ddWrite n] ++ post := by
  intro keys
  induction keys with
  | nil =>
    intro scratch tr scr h
    simp [copyToLoop] at h
    obtain ⟨rfl, rfl⟩ := h
    simp
  | cons p ps ih =>
    intro scratch tr scr h
    rcases hpp : processPartition env scratch p (reqs.filter (fun f => f.partition = p))
      with ⟨tr1, scr1, ok1⟩
    cases ok1 with
    | false => simp [copyToLoop, hpp] at h
    | true =>
      rcases hlp : copyToLoop env reqs ps scr1 with ⟨tr2, scr2, ok2⟩
      cases ok2 with
      | false => simp [copyToLoop, hpp, hlp] at h
      | true =>
        simp only [copyToLoop, hpp, hlp, if_true, Prod.mk.injEq] at h
        obtain ⟨h1, h2, -⟩ := h
        obtain ⟨n, mid, hn, htr1, hcase⟩ := processPartition_ok _ _ _ _ _ _ hpp
        obtain ⟨c1, c2, c3, hseg⟩ := ih scr1 tr2 scr2 hlp
        have hmid0 : mid.countP Ev.isReadCall = 0 ∧ mid.countP Ev.isWriteCall = 0 ∧
            mid.countP Ev.isDdWrite = 0 := by
          rcases hcase with ⟨-, rfl, -⟩ | ⟨-, rfl, -⟩ <;>
            simp [Ev.isReadCall, Ev.isWriteCall, Ev.isDdWrite]
        have htr1R : tr1.countP Ev.isReadCall = 1 := by
          simp [htr1, List.countP_cons, List.countP_append, List.countP_map,
            Ev.isReadCall, Ev.isWriteCall, Ev.isDdWrite, hmid0.1]
        have htr1W : tr1.countP Ev.isWriteCall = 1 := by
          simp [htr1, List.countP_cons, List.countP_append, List.countP_map,
            Ev.isReadCall, Ev.isWriteCall, Ev.isDdWrite, hmid0.2.1]
        have htr1D : tr1.countP Ev.isDdWrite = 1 := by
          simp [htr1, List.countP_cons, List.countP_append, List.countP_map,
            Ev.isReadCall, Ev.isWriteCall, Ev.isDdWrite, hmid0.2.2]
        subst h1
        refine ⟨?_, ?_, ?_, ?_⟩
        · simp [List.countP_append, htr1R, c1]
          omega
        · simp [List.countP_append, htr1W, c2]
          omega
        · simp [List.countP_append, htr1D, c3]
          omega
        · intro q hq
          rcases List.mem_cons.mp hq with rfl | hq'
          · refine ⟨n, [], mid, tr2, hn, ?_, ?_⟩
            · rcases hcase with ⟨-, rfl, -⟩ | ⟨-, rfl, -⟩ <;> simp
            · simp [htr1]
          · obtain ⟨m, pre, mid', post, hm, hmid', htr2⟩ := hseg q hq'
            exact ⟨m, tr1 ++ pre, mid', post, hm, hmid', by simp [htr2]⟩

theorem copyToLoop_ddRead (env : EngineEnv) (reqs : List FileCopyToParams) :
    ∀ (keys : List Partition) (scratch : List Nat) (tr : List Ev) (scr : List Nat),
      copyToLoop env reqs keys scratch = (tr, scr, true) →
      keys.Nodup →
      (∀ q ∈ keys, ∀ m, get_partition_num q env.disklabel = .ok m → m ∉ scratch) →
      tr.countP Ev.isDdRead = keys.length := by
  intro keys
  induction keys with
  | nil =>
    intro scratch tr scr h hnd hfresh
    simp [copyToLoop] at h
    obtain ⟨rfl, rfl⟩ := h
    simp
  | cons p ps ih =>
    intro scratch tr scr h hnd hfresh
    rcases hpp : processPartition env scratch p (reqs.filter (fun f => f.partition = p))
      with ⟨tr1, scr1, ok1⟩
    cases ok1 with
    | false => simp [copyToLoop, hpp] at h
    | true =>
      rcases hlp : copyToLoop env reqs ps scr1 with ⟨tr2, scr2, ok2⟩
      cases ok2 with
      | false => simp [copyToLoop, hpp, hlp] at h
      | true =>
        simp only [copyToLoop, hpp, hlp, if_true, Prod.mk.injEq] at h
        obtain ⟨h1, h2, -⟩ := h
        obtain ⟨n, mid, hn, htr1, hcase⟩ := processPartition_ok _ _ _ _ _ _ hpp
        have hpn : n ∉ scratch := hfresh p (List.mem_cons_self p ps) n hn
        rcases hcase with ⟨hmem, -, -⟩ | ⟨-, rfl, rfl⟩
        · exact absurd hmem hpn
        · have htr1D : tr1.countP Ev.isDdRead = 1 := by
            simp [htr1, List.countP_cons, List.countP_append, List.countP_map, Ev.isDdRead]
          have hfresh' : ∀ q ∈ ps, ∀ m, get_partition_num q env.disklabel = .ok m →
              m ∉ n :: scratch := by
            intro q hq m hm
            intro hmm
            rcases List.mem_cons.mp hmm with rfl | hmm'
            · have : q = p := gpn_inj env.disklabel q p m hm hn
              subst this
              exact (List.nodup_cons.mp hnd).1 hq
            · exact hfresh q (List.mem_cons_of_mem p hq) m hm hmm'
          have := ih _ tr2 scr2 hlp (List.nodup_cons.mp hnd).2 hfresh'
          subst h1
          simp [List.countP_append, htr1D, this]
          omega

theorem splitOnceList_append (a b : List Char) (h : ' ' ∉ a) :
    splitOnceList (a ++ ' ' :: b) = some (a, b) := by
  induction a with
  | nil => simp [splitOnceList]
  | cons c cs ih =>
    have hc : ¬ c = ' ' := fun hc => h (hc ▸ List.mem_cons_self c cs)
    have hcs : ' ' ∉ cs := fun hm => h (List.mem_cons_of_mem c hm)
    simp [splitOnceList, hc, ih hcs]

/-! ## Claim theorems -/

/-- C1: resolving the partition number returns the fixed tabulated value:
boot maps to 1 and rootA to 2 regardless of disklabel type and without
inspecting the image (the result is independent of the pipeline's outcome,
including pipeline failure), (factory,gpt) maps to 4, (factory,dos) to 5,
(cert,gpt) to 5, (cert,dos) to 6; for cert/factory with any other disklabel
type the resolution fails with a FormatError. -/
theorem get_partition_num_table (d : Option String) (s : String)
    (hs : s ≠ "gpt" ∧ s ≠ "dos") :
    get_partition_num .boot d = .ok 1 ∧
    get_partition_num .rootA d = .ok 2 ∧
    get_partition_num .factory (some "gpt") = .ok 4 ∧
    get_partition_num .factory (some "dos") = .ok 5 ∧
    get_partition_num .cert (some "gpt") = .ok 5 ∧
    get_partition_num .cert (some "dos") = .ok 6 ∧
    get_partition_num .factory (some s) = .error .formatError ∧
    get_partition_num .cert (some s) = .error .formatError := by
  obtain ⟨h1, h2⟩ := hs
  refine ⟨rfl, rfl, rfl, rfl, rfl, rfl, ?_, ?_⟩ <;>
    simp [get_partition_num, h1, h2]

/-- Witness for C1 at the concrete disklabel type "ext4". -/
theorem get_partition_num_table_witness :
    get_partition_num .boot none = .ok 1 ∧
    get_partition_num .rootA none = .ok 2 ∧
    get_partition_num .factory (some "gpt") = .ok 4 ∧
    get_partition_num .factory (some "dos") = .ok 5 ∧
    get_partition_num .cert (some "gpt") = .ok 5 ∧
    get_partition_num .cert (some "dos") = .ok 6 ∧
    get_partition_num .factory (some "ext4") = .error .formatError ∧
    get_partition_num .cert (some "ext4") = .error .formatError :=
  get_partition_num_table none "ext4" (by decide)

/-- C2: when exactly one layout-listing row matches the partition's device
name, the resolver returns that row's Start and End columns, and both the
extraction and the write-back `dd` commands receive the second (End) value
directly as their 512-byte-sector `count`, with no subtraction of the start
sector. -/
theorem get_partition_offset_end_column (table : List FdiskRow)
    (image partNum partFile : String) (r : FdiskRow)
    (hone : table.filter (grepMatches (image ++ partNum)) = [r])
    (hsp : ' ' ∉ r.start.data) :
    get_partition_offset table image partNum = .ok (r.start, r.endCol) ∧
    read_partition_dd image partFile (r.start, r.endCol) =
      { inFile := image, outFile := partFile, bs := 512,
        skipOrSeek := r.start, count := r.endCol, conv := "sparse" } ∧
    write_partition_dd image partFile (r.start, r.endCol) =
      { inFile := partFile, outFile := image, bs := 512,
        skipOrSeek := r.start, count := r.endCol, conv := "notrunc,sparse" } := by
  refine ⟨?_, rfl, rfl⟩
  have hdata : (awkCols23 r).data = r.start.data ++ ' ' :: r.endCol.data := by
    simp [awkCols23, String.data_append]
  simp only [get_partition_offset, hone, List.map_cons, List.map_nil, pipelineText,
    hdata, splitOnceList_append _ _ hsp]

/-- Witness for C2 on a concrete one-row layout table. -/
theorem get_partition_offset_end_column_witness :
    get_partition_offset [⟨"img5", "2048", "409600"⟩] "img" "5" = .ok ("2048", "409600") ∧
    read_partition_dd "img" "5.img" ("2048", "409600") =
      { inFile := "img", outFile := "5.img", bs := 512,
        skipOrSeek := "2048", count := "409600", conv := "sparse" } ∧
    write_partition_dd "img" "5.img" ("2048", "409600") =
      { inFile := "5.img", outFile := "img", bs := 512,
        skipOrSeek := "2048", count := "409600", conv := "notrunc,sparse" } :=
  get_partition_offset_end_column [⟨"img5", "2048", "409600"⟩] "img" "5" "5.img"
    ⟨"img5", "2048", "409600"⟩ (by decide) (by decide)

/-- C4: evaluated on a codec satisfying the library's round-trip contract,
the Bzip2 and Gzip shim decompress operations invert their compress
operations, but the Xz decompress operation does not: it is built on an
encoder stream and re-encodes, so the scratch file receives the doubly
encoded image rather than the decompressed content. -/
theorem xz_shim_decompress_not_inverse :
    bzShimDecompress markerCodec (bzShimCompress markerCodec [1]) = [1] ∧
    gzShimDecompress markerCodec (gzShimCompress markerCodec [1]) = [1] ∧
    xzShimDecompress markerCodec (xzShimCompress markerCodec [1]) = [0, 0, 1] ∧
    xzShimDecompress markerCodec (xzShimCompress markerCodec [1]) ≠ [1] :=
  ⟨rfl, rfl, rfl, by decide⟩

/-- C5 counterexample: on the run where stream-decoding fails after the
scratch file has been created, the call returns the decode error and the
scratch file still exists — the claim's "decompression failure" return path
does not clean up. -/
theorem scratch_leak_on_decode_failure :
    (validate_and_decompress_image envDecodeFail shimSt0).1 = .error .decodeFail ∧
    (validate_and_decompress_image envDecodeFail shimSt0).2.scratchExists = true :=
  ⟨rfl, rfl⟩

/-- C5 amended: once the image has been fully decompressed into the scratch
file, the shim reaches its unconditional removal step on every return path —
inner-action success, inner-action failure and recompression failure alike —
and, provided the removal primitive succeeds, the scratch file no longer
exists when the call returns; when decompression itself fails after creating
the scratch file, no removal is attempted and the file is left behind. -/
theorem scratch_removed_after_decompress (env : ShimEnv) (st : ShimSt)
    (hm : env.magicOk = true) (hc : (findCodec env.magic).isSome = true)
    (h1 : env.createOk = true) (h2 : env.openOk = true) (h3 : env.decodeOk = true)
    (hr : env.removeOk = true) :
    (validate_and_decompress_image env st).2.scratchExists = false := by
  obtain ⟨i, hi⟩ := Option.isSome_iff_exists.mp hc
  obtain ⟨mo, mg, co, oo, dk, ac, cco, oso, ek, ro⟩ := env
  simp only at hm h1 h2 h3 hr hi
  subst hm h1 h2 h3 hr
  simp only [validate_and_decompress_image, decompressStep, compressStep, hi]
  cases ac <;> cases cco <;> cases oso <;> cases ek <;> simp

/-- Witness for C5's amended theorem at a concrete failing inner action. -/
theorem scratch_removed_after_decompress_witness :
    (validate_and_decompress_image
      { magicOk := true, magic := "XZ compressed data", createOk := true,
        openOk := true, decodeOk := true, action := .error 3,
        createOrigOk := true, openScratchOk := true, encodeOk := true,
        removeOk := true } shimSt0).2.scratchExists = false :=
  scratch_removed_after_decompress _ shimSt0 rfl rfl rfl rfl rfl rfl

/-- C6 counterexample: inner action fails with code 7 and the scratch-file
removal also fails; the reported error is the cleanup error, not the inner
action's error — the cleanup failure masks the earlier failure. -/
theorem cleanup_error_masks_earlier_error :
    (validate_and_decompress_image envCleanupMask shimSt0).1 = .error .cleanupFail ∧
    (validate_and_decompress_image envCleanupMask shimSt0).1 ≠ .error (.innerErr 7) ∧
    envCleanupMask.action = .error 7 :=
  ⟨rfl, fun h => (by decide : VErr.cleanupFail ≠ VErr.innerErr 7) (Except.error.inj h), rfl⟩

/-- C6 amended: a failing scratch-file cleanup always becomes the reported
error, masking any earlier failure of the action or recompression step; the
earlier failure (the action's error, or the recompression error after inner
success) is reported exactly when cleanup succeeds. -/
theorem cleanup_error_precedence (env : ShimEnv) (st : ShimSt)
    (hm : env.magicOk = true) (hc : (findCodec env.magic).isSome = true)
    (h1 : env.createOk = true) (h2 : env.openOk = true) (h3 : env.decodeOk = true) :
    (env.removeOk = false →
      (validate_and_decompress_image env st).1 = .error .cleanupFail) ∧
    (env.removeOk = true → ∀ c, env.action = .error c →
      (validate_and_decompress_image env st).1 = .error (.innerErr c)) ∧
    (env.removeOk = true → env.action = .ok () →
      (env.createOrigOk = true → env.openScratchOk = true → env.encodeOk = true →
        (validate_and_decompress_image env st).1 = .ok ()) ∧
      ((env.createOrigOk = false ∨ env.openScratchOk = false ∨ env.encodeOk = false) →
        (validate_and_decompress_image env st).1 = .error .recompressFail)) := by
  obtain ⟨i, hi⟩ := Option.isSome_iff_exists.mp hc
  obtain ⟨mo, mg, co, oo, dk, ac, cco, oso, ek, ro⟩ := env
  simp only at hm h1 h2 h3 hi
  subst hm h1 h2 h3
  simp only [validate_and_decompress_image, decompressStep, compressStep, hi]
  cases ro <;> cases ac <;> cases cco <;> cases oso <;> cases ek <;>
    simp_all

/-- Witness for C6's amended theorem: cleanup failure masks inner error 7,
and with working cleanup the inner error 7 is reported. -/
theorem cleanup_error_precedence_witness :
    (validate_and_decompress_image envCleanupMask shimSt0).1 = .error .cleanupFail ∧
    (validate_and_decompress_image
      { envCleanupMask with removeOk := true } shimSt0).1 = .error (.innerErr 7) := by
  refine ⟨(cleanup_error_precedence envCleanupMask shimSt0 rfl rfl rfl rfl rfl).1 rfl, ?_⟩
  exact (cleanup_error_precedence { envCleanupMask with removeOk := true } shimSt0
    rfl rfl rfl rfl rfl).2.1 rfl 7 rfl

/-- C7: for a compressed image, when the inner action fails the original
image path has not been written to: recompression (whose `File::create`
truncates the original) runs only after the action succeeds, and no other
shim step writes to the original path. -/
theorem original_untouched_on_action_failure (env : ShimEnv) (st : ShimSt) (c : Nat)
    (hc : (findCodec env.magic).isSome = true)
    (horig : st.origModified = false) (ha : env.action = .error c) :
    (validate_and_decompress_image env st).2.origModified = false := by
  obtain ⟨i, hi⟩ := Option.isSome_iff_exists.mp hc
  obtain ⟨mo, mg, co, oo, dk, ac, cco, oso, ek, ro⟩ := env
  obtain ⟨se, om⟩ := st
  simp only at hi ha horig
  subst ha horig
  simp only [validate_and_decompress_image, decompressStep, compressStep, hi]
  cases mo <;> cases co <;> cases oo <;> cases dk <;> cases ro <;> simp

/-- Witness for C7: a failing inner action on a compressed image leaves the
original unmodified. -/
theorem original_untouched_on_action_failure_witness :
    (validate_and_decompress_image envCleanupMask shimSt0).2.origModified = false :=
  original_untouched_on_action_failure envCleanupMask shimSt0 7 rfl rfl rfl

/-- C3: on a successful `copy_to_image` run started without pre-existing
scratch files, the number of read_partition invocations and of
write_partition invocations both equal the number P of distinct partition
kinds touched by the request list (not the number of files), the dd
extractions and dd write-backs also number exactly P, and every request for
a partition is applied between that partition's single extraction and its
single write-back. -/
theorem copy_to_image_batching (env : EngineEnv) (reqs : List FileCopyToParams)
    (tr : List Ev) (scr : List Nat)
    (h : copy_to_image env [] reqs = (tr, scr, true)) :
    tr.countP Ev.isReadCall = (reqs.map (fun f => f.partition)).toFinset.card ∧
    tr.countP Ev.isWriteCall = (reqs.map (fun f => f.partition)).toFinset.card ∧
    tr.countP Ev.isDdRead = (reqs.map (fun f => f.partition)).toFinset.card ∧
    tr.countP Ev.isDdWrite = (reqs.map (fun f => f.partition)).toFinset.card ∧
    ∀ p ∈ reqs.map (fun f => f.partition), ∃ n pre mid post,
      get_partition_num p env.disklabel = .ok n ∧
      (mid = [] ∨ mid = [Ev.ddRead n]) ∧
      tr = pre ++ Ev.readPartCall n :: mid ++
        (reqs.filter (fun f => f.partition = p)).map
          (fun f => Ev.applyFile n f.in_file) ++
        [Ev.writePartCall n, Ev.ddWrite n] ++ post := by
  have hL := copyToLoop_ok env reqs _ [] tr scr h
  have hD := copyToLoop_ddRead env reqs _ [] tr scr h
    (List.nodup_dedup _) (by simp)
  have hcard : (reqs.map (fun f => f.partition)).dedup.length =
      (reqs.map (fun f => f.partition)).toFinset.card :=
    (List.card_toFinset _).symm
  refine ⟨hcard ▸ hL.1, hcard ▸ hL.2.1, hcard ▸ hD, hcard ▸ hL.2.2.1, ?_⟩
  intro p hp
  exact hL.2.2.2 p (List.mem_dedup.mpr hp)

/-- Witness for C3: three files across two distinct partitions on a healthy
gpt run give exactly two extractions and two write-backs. -/
theorem copy_to_image_batching_witness :
    copy_to_image envEngineW [] reqsW = (trWitness, [1, 2], true) ∧
    trWitness.countP Ev.isReadCall = 2 ∧
    trWitness.countP Ev.isWriteCall = 2 ∧
    trWitness.countP Ev.isDdRead = 2 ∧
    trWitness.countP Ev.isDdWrite = 2 := by
  have h : copy_to_image envEngineW [] reqsW = (trWitness, [1, 2], true) := by decide
  have hc := copy_to_image_batching envEngineW reqsW trWitness [1, 2] h
  refine ⟨h, hc.1.trans (by decide), hc.2.1.trans (by decide),
    hc.2.2.1.trans (by decide), hc.2.2.2.1.trans (by decide)⟩

/-- C8: parsing a CopyTo request string succeeds exactly when the string
holds exactly one ',' and exactly one ':', the middle field of the
separator split names a known partition, the first field exists on the
host and the last field is an absolute path.  Separator order is not
inspected beyond the counts, so the swapped-order string with the same
counts is handled by the same conditions. -/
theorem fileCopyToParams_from_str_iff (hostExists : String → Bool) (s : String) :
    (fileCopyToParams_from_str hostExists s).isOk = true ↔
    (countChar s ',' = 1 ∧ countChar s ':' = 1 ∧
      (partitionFromStr (String.mk ((splitSeps s.data).getD 1 []))).isSome = true ∧
      hostExists (String.mk ((splitSeps s.data).getD 0 [])) = true ∧
      isAbsolutePath (String.mk ((splitSeps s.data).getD 2 [])) = true) := by
  by_cases hc : countChar s ',' = 1 ∧ countChar s ':' = 1
  · have hlen : (splitSeps s.data).length = 3 := by
      rw [splitSeps_length, countP_isSep]
      have h1 : s.data.count ',' = 1 := hc.1
      have h2 : s.data.count ':' = 1 := hc.2
      omega
    rcases he : splitSeps s.data with _ | ⟨f0, _ | ⟨f1, _ | ⟨f2, _ | _⟩⟩⟩ <;>
      rw [he] at hlen <;> simp at hlen
    simp only [fileCopyToParams_from_str, hc, and_self, if_true, he]
    cases hp : partitionFromStr (String.mk f1) with
    | none => simp [hp, hc, Except.isOk, Except.toBool]
    | some p =>
      by_cases hh : hostExists (String.mk f0) = true
      · by_cases hab : isAbsolutePath (String.mk f2) = true
        · simp [hp, hh, hab, hc, Except.isOk, Except.toBool]
        · simp [hp, hh, hab, hc, Except.isOk, Except.toBool]
      · simp [hp, hh, hc, Except.isOk, Except.toBool]
  · simp only [fileCopyToParams_from_str, if_neg hc]
    constructor
    · intro h
      simp [Except.isOk, Except.toBool] at h
    · rintro ⟨h1, h2, -⟩
      exact absurd ⟨h1, h2⟩ hc

/-- C10 counterexample: a boot-partition request whose destination path has
no final file-name component does not panic — the boot branch never unwraps
the destination's file name; with every delegated step healthy except the
final rename, the call returns an ordinary error. -/
theorem copy_from_boot_root_dest_no_panic :
    fileName reqBootRootDest.out_file = none ∧
    reqBootRootDest.partition = .boot ∧
    copy_from_image envRenameFails [reqBootRootDest] = .error ∧
    copy_from_image envRenameFails [reqBootRootDest] ≠ .panicked := by
  refine ⟨rfl, rfl, rfl, by decide⟩

/-- C10 amended: when the request's partition number, offsets and extraction
all resolve, a non-boot request whose destination path lacks a final
file-name component panics at the unchecked unwrap, and a boot request
whose in-image source path lacks one panics likewise; the call returns
normally only when the component that gets unwrapped exists.  A boot
request never unwraps the destination's file name. -/
theorem copy_from_unwrap_panics (env : CopyFromEnv) (param : FileCopyFromParams)
    (hpar : env.parentOk = true) (hdd : env.ddReadOk = true)
    (hres : ∃ n, get_partition_num param.partition env.disklabel = .ok n ∧
      (get_partition_offset env.table env.image (toString n)).isOk = true) :
    (param.partition ≠ .boot → fileName param.out_file = none →
      copy_from_image env [param] = .panicked) ∧
    (param.partition = .boot → fileName param.in_file = none →
      copy_from_image env [param] = .panicked) ∧
    (copy_from_image env [param] = .ok →
      (param.partition = .boot → (fileName param.in_file).isSome = true) ∧
      (param.partition ≠ .boot → (fileName param.out_file).isSome = true)) := by
  obtain ⟨n, hn, hoff⟩ := hres
  rcases ho : get_partition_offset env.table env.image (toString n) with e | off
  · rw [ho] at hoff
    simp [Except.isOk, Except.toBool] at hoff
  · have hrun : ∀ r, copy_from_image env [param] = r ↔ copy_from_one env param = r := by
      intro r
      simp only [copy_from_image, hpar, Bool.not_true, Bool.false_eq_true, if_false,
        copy_from_image.go]
      cases hco : copy_from_one env param <;> simp [copy_from_image.go, hco]
    by_cases hb : param.partition = Partition.boot
    · rw [hb] at hn
      cases hf : fileName param.in_file with
      | none =>
        refine ⟨fun hnb => absurd hb hnb, fun _ _ => ?_, fun hok => ?_⟩
        · rw [hrun]
          simp [copy_from_one, hb, hn, ho, hdd, hf]
        · rw [hrun] at hok
          simp [copy_from_one, hb, hn, ho, hdd, hf] at hok
      | some v =>
        refine ⟨fun hnb => absurd hb hnb, fun _ hnone => ?_, fun hok => ?_⟩
        · exact absurd hnone (by simp)
        · exact ⟨fun _ => by simp [hf], fun hnb => absurd hb hnb⟩
    · cases hf : fileName param.out_file with
      | none =>
        refine ⟨fun _ _ => ?_, fun hbb => absurd hbb hb, fun hok => ?_⟩
        · rw [hrun]
          simp [copy_from_one, hn, ho, hdd, hb, hf]
        · rw [hrun] at hok
          simp [copy_from_one, hn, ho, hdd, hb, hf] at hok
      | some v =>
        refine ⟨fun _ hnone => ?_, fun hbb => absurd hbb hb, fun hok => ?_⟩
        · exact absurd hnone (by simp)
        · exact ⟨fun hbb => absurd hbb hb, fun _ => by simp [hf]⟩

/-- Witness for C10's amended theorem: a rootA request with destination `/`
panics on an otherwise healthy run. -/
theorem copy_from_unwrap_panics_witness :
    copy_from_image envRenameFails
      [{ in_file := { absolute := true, components := ["a.txt"] },
         partition := .rootA,
         out_file := { absolute := true, components := [] } }] = .panicked :=
  (copy_from_unwrap_panics envRenameFails
      { in_file := { absolute := true, components := ["a.txt"] },
        partition := .rootA,
        out_file := { absolute := true, components := [] } }
      rfl rfl ⟨2, rfl, by decide⟩).1 (by decide) rfl

/-- C9: the Xz preset level comes from the XZ_ENCODER_PRESET setting with
default 9; the level actually used always lies in [0,9]; unset or
unparsable values fall back to 9, parsed values 0 through 9 are used as
given, and parsed values above 9 fall back to 9. -/
theorem get_level_spec (envVar : Option String) :
    get_level envVar ≤ 9 ∧
    (envVar = none → get_level envVar = 9) ∧
    (∀ s, envVar = some s →
      (parseU32 s = none → get_level envVar = 9) ∧
      (∀ v, parseU32 s = some v →
        (v ≤ 9 → get_level envVar = v) ∧ (9 < v → get_level envVar = 9))) := by
  refine ⟨?_, ?_, ?_⟩
  · simp only [get_level]
    split <;> omega
  · rintro rfl
    rfl
  · rintro s rfl
    refine ⟨fun hp => ?_, fun v hv => ⟨fun hle => ?_, fun hgt => ?_⟩⟩
    · simp [get_level, hp]
    · simp only [get_level, Option.getD_some, hv, Option.getD_some]
      rcases Nat.lt_or_ge v 9 with h | h
      · simp [h]
      · have : v = 9 := le_antisymm hle h
        simp [this]
    · simp only [get_level, Option.getD_some, hv, Option.getD_some]
      have : ¬ v < 9 := by omega
      simp [this]

/-- Witness for C9 at concrete setting values. -/
theorem get_level_spec_witness :
    get_level (some "7") = 7 ∧ get_level (some "12") = 9 ∧
    get_level (some "junk") = 9 ∧ get_level none = 9 := by
  have h7 := (get_level_spec (some "7")).2.2 "7" rfl
  have h12 := (get_level_spec (some "12")).2.2 "12" rfl
  have hj := (get_level_spec (some "junk")).2.2 "junk" rfl
  have hn := (get_level_spec none).2.1 rfl
  refine ⟨(h7.2 7 (by decide)).1 (by decide), (h12.2 12 (by decide)).2 (by decide),
    hj.1 (by decide), hn⟩

end OmnectCli
